import Mathlib

/-!
Shallow embedding of the data-preparation and statistical-summarization
pipeline of the DICHOSOcean dashboard (src/app.py), together with theorems
settling the specification claims against it.

Modelling conventions:
* A parsed CSV is a list of measurement records (`Row`); the column renaming
  and timestamp parsing done by `load_data` / `load_raw_data` are absorbed
  into the `Row` representation, so both loaders take the parsed rows.
* Nullable float cells are `Option ℚ` (a missing value / NaN is `none`);
  exact rationals stand for floats, so float rounding is out of scope.
* Timestamps are a calendar date plus a minute-of-day, ordered
  lexicographically, matching pandas instants in a single UTC offset;
  `.dt.date` is the `date` projection and `.dt.year` reads `date.year`.
* Values that the interannual code manipulates through numpy float
  semantics (means, percent change, p-values that may be NaN or infinite)
  live in `EF`, a rational extension with signed infinities and NaN.
* The scipy hypothesis tests (`mannwhitneyu`, `ttest_ind`) and the p-value
  of `scipy.stats.pearsonr` are external library collaborators; they enter
  the embedding as function parameters, with `none` modelling a raised
  exception for the tests (the app catches any exception).
-/

/-- Calendar date, the value of a pandas `.dt.date` projection. -/
structure Date where
  year : Int
  month : Nat
  day : Nat
  deriving DecidableEq, Repr

/-- Timestamp: a calendar date plus the time of day in minutes (UTC offset fixed). -/
structure Timestamp where
  date : Date
  minute : Nat
  deriving DecidableEq, Repr

/-- Strict lexicographic order on calendar dates. -/
def dateLt (a b : Date) : Prop :=
  a.year < b.year ∨ (a.year = b.year ∧ (a.month < b.month ∨ (a.month = b.month ∧ a.day < b.day)))

/-- Non-strict lexicographic order on calendar dates. -/
def dateLe (a b : Date) : Prop :=
  a.year < b.year ∨ (a.year = b.year ∧ (a.month < b.month ∨ (a.month = b.month ∧ a.day ≤ b.day)))

instance (a b : Date) : Decidable (dateLt a b) := by
  unfold dateLt; infer_instance

instance (a b : Date) : Decidable (dateLe a b) := by
  unfold dateLe; infer_instance

/-- Order on timestamps: date first, then time of day. -/
def tsLe (a b : Timestamp) : Prop :=
  dateLt a.date b.date ∨ (a.date = b.date ∧ a.minute ≤ b.minute)

instance (a b : Timestamp) : Decidable (tsLe a b) := by
  unfold tsLe; infer_instance

lemma dateLe_refl (a : Date) : dateLe a a :=
  Or.inr ⟨rfl, Or.inr ⟨rfl, Nat.le_refl _⟩⟩

lemma tsLe_refl (a : Timestamp) : tsLe a a :=
  Or.inr ⟨rfl, Nat.le_refl _⟩

lemma tsLe_trans {a b c : Timestamp} (h1 : tsLe a b) (h2 : tsLe b c) : tsLe a c := by
  rcases a with ⟨⟨y1, m1, d1⟩, t1⟩
  rcases b with ⟨⟨y2, m2, d2⟩, t2⟩
  rcases c with ⟨⟨y3, m3, d3⟩, t3⟩
  simp only [tsLe, dateLt, Date.mk.injEq] at h1 h2 ⊢
  omega

lemma tsLe_total (a b : Timestamp) : tsLe a b ∨ tsLe b a := by
  rcases a with ⟨⟨y1, m1, d1⟩, t1⟩
  rcases b with ⟨⟨y2, m2, d2⟩, t2⟩
  simp only [tsLe, dateLt, Date.mk.injEq]
  omega

lemma tsLe_dateLe {a b : Timestamp} (h : tsLe a b) : dateLe a.date b.date := by
  rcases a with ⟨⟨y1, m1, d1⟩, t1⟩
  rcases b with ⟨⟨y2, m2, d2⟩, t2⟩
  simp only [tsLe, dateLt, dateLe, Date.mk.injEq] at h ⊢
  omega

/-- Measurement record: one timestamped observation with nine nullable sensor
variables, the shape produced by reading and renaming the prepared CSV. -/
structure Row where
  datetime : Timestamp
  temperature : Option ℚ
  pressure : Option ℚ
  chlorophyll_a : Option ℚ
  turbidity : Option ℚ
  salinity : Option ℚ
  ph : Option ℚ
  dissolved_oxygen : Option ℚ
  pco2 : Option ℚ
  ta : Option ℚ
  deriving DecidableEq, Repr

/-- Canonical variable names of the nine sensor columns. -/
inductive Var where
  | temperature
  | pressure
  | chlorophyll_a
  | turbidity
  | salinity
  | ph
  | dissolved_oxygen
  | pco2
  | ta
  deriving DecidableEq, Repr

/-- Column projection of a record by canonical variable name. -/
def col (v : Var) (r : Row) : Option ℚ :=
  match v with
  | .temperature => r.temperature
  | .pressure => r.pressure
  | .chlorophyll_a => r.chlorophyll_a
  | .turbidity => r.turbidity
  | .salinity => r.salinity
  | .ph => r.ph
  | .dissolved_oxygen => r.dissolved_oxygen
  | .pco2 => r.pco2
  | .ta => r.ta

/-- Linear-interpolation quantile of a series, as pandas Series.quantile
computes it: nulls are dropped by the caller, the remaining values are
sorted ascending, the index position is q * (n - 1), and the value is
interpolated linearly between the two neighbouring order statistics.
An empty series yields none (pandas returns NaN). -/
def quantile (q : ℚ) (xs : List ℚ) : Option ℚ :=
  match xs.length with
  | 0 => none
  | Nat.succ m =>
    let s := xs.mergeSort (fun a b => decide (a ≤ b))
    let pos : ℚ := q * (m : ℚ)
    let i : ℕ := ⌊pos⌋.toNat
    let frac : ℚ := pos - (i : ℚ)
    let lo := s.getD i 0
    let hi := s.getD (i + 1) lo
    some (lo + frac * (hi - lo))

/-- Turbidity outlier threshold: the 99th percentile of the turbidity column
over the entire dataset, computed once at load time (app.py line 232). -/
def turbidity_threshold (raw : List Row) : Option ℚ :=
  quantile (99 / 100) (raw.filterMap Row.turbidity)

/-- Per-row outlier rules of load_data (app.py lines 226 to 237):
chlorophyll values above 200 are nulled, turbidity values above the given
threshold are nulled, TA values below 2000 are nulled. A missing threshold
(empty turbidity column, NaN in pandas) nulls nothing, matching the float
comparison v > NaN being false. -/
def scrubRow (thr : Option ℚ) (r : Row) : Row :=
  { r with
    chlorophyll_a :=
      match r.chlorophyll_a with
      | some v => if 200 < v then none else some v
      | none => none
    turbidity :=
      match r.turbidity, thr with
      | some v, some t => if t < v then none else some v
      | v, _ => v
    ta :=
      match r.ta with
      | some v => if v < 2000 then none else some v
      | none => none }

/-- Clean loader load_data: reads the prepared CSV (here: the parsed rows)
and applies the three fixed outlier rules, with the turbidity threshold
computed over the full dataset. -/
def load_data (raw : List Row) : List Row :=
  raw.map (scrubRow (turbidity_threshold raw))

/-- Raw loader load_raw_data: reads the same prepared CSV with no outlier
removal. -/
def load_raw_data (raw : List Row) : List Row :=
  raw

/-- Date-range filter applied to a dataset (app.py lines 364 to 377): with
exactly two picked dates the rows whose calendar date lies inside the
inclusive bounds are kept in order; any other selection (one date or none)
falls back to the full dataset. -/
def filterRange (d : List Row) (date_range : List Date) : List Row :=
  match date_range with
  | [a, b] =>
    d.filter (fun r => decide (dateLe a r.datetime.date ∧ dateLe r.datetime.date b))
  | _ => d

/-- C6: every row of the clean dataset has chlorophyll either null or at
most 200 and TA either null or at least 2000, while the raw loader returns
the source rows unmodified. -/
theorem clean_bounds_raw_unmodified (raw : List Row) :
    (∀ r ∈ load_data raw,
      (∀ v, r.chlorophyll_a = some v → v ≤ 200) ∧
      (∀ v, r.ta = some v → 2000 ≤ v)) ∧
    load_raw_data raw = raw := by
  refine ⟨?_, rfl⟩
  intro r hr
  rw [load_data, List.mem_map] at hr
  obtain ⟨r0, _, hr0⟩ := hr
  subst hr0
  constructor
  · intro v hv
    simp only [scrubRow] at hv
    rcases h : r0.chlorophyll_a with _ | w
    · rw [h] at hv; exact absurd hv (by simp)
    · rw [h] at hv
      by_cases hw : 200 < w
      · simp only [if_pos hw] at hv; exact absurd hv (by simp)
      · simp only [if_neg hw] at hv
        obtain rfl : w = v := by simpa using hv
        exact le_of_not_lt hw
  · intro v hv
    simp only [scrubRow] at hv
    rcases h : r0.ta with _ | w
    · rw [h] at hv; exact absurd hv (by simp)
    · rw [h] at hv
      by_cases hw : w < 2000
      · simp only [if_pos hw] at hv; exact absurd hv (by simp)
      · simp only [if_neg hw] at hv
        obtain rfl : w = v := by simpa using hv
        exact le_of_not_lt hw

/-- C2: the turbidity threshold is fixed at load time over the full dataset,
so filtering by any date range commutes with outlier nulling: filtering the
clean dataset equals nulling (with that same full-dataset threshold) after
filtering the raw rows. -/
theorem outlier_nulling_commutes_with_range (raw : List Row) (date_range : List Date) :
    filterRange (load_data raw) date_range =
      (filterRange raw date_range).map (scrubRow (turbidity_threshold raw)) := by
  match date_range with
  | [a, b] =>
    show (raw.map (scrubRow (turbidity_threshold raw))).filter _ = _
    rw [List.filter_map]
    rfl
  | [] => rfl
  | [_] => rfl
  | _ :: _ :: _ :: _ => rfl

/-- Minimum of a timestamp series, none when empty (pandas Series.min). -/
def seriesMinTs (l : List Timestamp) : Option Timestamp :=
  match l with
  | [] => none
  | h :: t => some (t.foldl (fun a b => if tsLe a b then a else b) h)

/-- Maximum of a timestamp series, none when empty (pandas Series.max). -/
def seriesMaxTs (l : List Timestamp) : Option Timestamp :=
  match l with
  | [] => none
  | h :: t => some (t.foldl (fun a b => if tsLe a b then b else a) h)

/-- Default full range offered by the sidebar picker: the calendar dates of
the minimum and maximum timestamps of the dataset (app.py line 330). -/
def date_range_full (d : List Row) : List Date :=
  match seriesMinTs (d.map Row.datetime), seriesMaxTs (d.map Row.datetime) with
  | some a, some b => [a.date, b.date]
  | _, _ => []

lemma foldlMin_le (t : List Timestamp) (a : Timestamp) :
    tsLe (t.foldl (fun a b => if tsLe a b then a else b) a) a ∧
      ∀ x ∈ t, tsLe (t.foldl (fun a b => if tsLe a b then a else b) a) x := by
  induction t generalizing a with
  | nil => exact ⟨tsLe_refl a, by simp⟩
  | cons b t ih =>
    have step : tsLe (if tsLe a b then a else b) a ∧ tsLe (if tsLe a b then a else b) b := by
      by_cases h : tsLe a b
      · rw [if_pos h]; exact ⟨tsLe_refl a, h⟩
      · rw [if_neg h]
        rcases tsLe_total a b with h1 | h1
        · exact absurd h1 h
        · exact ⟨h1, tsLe_refl b⟩
    have ihs := ih (if tsLe a b then a else b)
    refine ⟨tsLe_trans ihs.1 step.1, ?_⟩
    intro x hx
    rcases List.mem_cons.mp hx with rfl | hx
    · exact tsLe_trans ihs.1 step.2
    · exact ihs.2 x hx

lemma foldlMax_ge (t : List Timestamp) (a : Timestamp) :
    tsLe a (t.foldl (fun a b => if tsLe a b then b else a) a) ∧
      ∀ x ∈ t, tsLe x (t.foldl (fun a b => if tsLe a b then b else a) a) := by
  induction t generalizing a with
  | nil => exact ⟨tsLe_refl a, by simp⟩
  | cons b t ih =>
    have step : tsLe a (if tsLe a b then b else a) ∧ tsLe b (if tsLe a b then b else a) := by
      by_cases h : tsLe a b
      · rw [if_pos h]; exact ⟨h, tsLe_refl b⟩
      · rw [if_neg h]
        rcases tsLe_total a b with h1 | h1
        · exact absurd h1 h
        · exact ⟨tsLe_refl a, h1⟩
    have ihs := ih (if tsLe a b then b else a)
    refine ⟨tsLe_trans step.1 ihs.1, ?_⟩
    intro x hx
    rcases List.mem_cons.mp hx with rfl | hx
    · exact tsLe_trans step.2 ihs.1
    · exact ihs.2 x hx

lemma seriesMinTs_le {l : List Timestamp} {m : Timestamp} (h : seriesMinTs l = some m) :
    ∀ x ∈ l, tsLe m x := by
  match l with
  | [] => simp [seriesMinTs] at h
  | a :: t =>
    simp only [seriesMinTs, Option.some.injEq] at h
    intro x hx
    rcases List.mem_cons.mp hx with rfl | hx
    · exact h ▸ (foldlMin_le t x).1
    · exact h ▸ (foldlMin_le t a).2 x hx

lemma seriesMaxTs_ge {l : List Timestamp} {m : Timestamp} (h : seriesMaxTs l = some m) :
    ∀ x ∈ l, tsLe x m := by
  match l with
  | [] => simp [seriesMaxTs] at h
  | a :: t =>
    simp only [seriesMaxTs, Option.some.injEq] at h
    intro x hx
    rcases List.mem_cons.mp hx with rfl | hx
    · exact h ▸ (foldlMax_ge t x).1
    · exact h ▸ (foldlMax_ge t a).2 x hx

/-- C7: with two bounds the Range Selector returns exactly the in-order
subsequence of records whose calendar date lies in the inclusive bounds;
a degenerate selection (anything but two dates) passes the dataset through
unchanged; and selecting the full min/max date range of a nonempty dataset
returns the dataset itself, same rows and order. -/
theorem range_selector_spec (d : List Row) :
    (∀ a b, (filterRange d [a, b]).Sublist d ∧
      ∀ r, r ∈ filterRange d [a, b] ↔
        r ∈ d ∧ dateLe a r.datetime.date ∧ dateLe r.datetime.date b) ∧
    (∀ date_range : List Date, date_range.length ≠ 2 → filterRange d date_range = d) ∧
    (d ≠ [] → filterRange d (date_range_full d) = d) := by
  refine ⟨?_, ?_, ?_⟩
  · intro a b
    constructor
    · exact List.filter_sublist d
    · intro r
      simp [filterRange, List.mem_filter]
  · intro rng hlen
    match rng with
    | [] => rfl
    | [_] => rfl
    | [_, _] => exact absurd rfl hlen
    | _ :: _ :: _ :: _ => rfl
  · intro hne
    match hd : d with
    | [] => exact absurd rfl hne
    | r0 :: d0 =>
      have hmin : ∃ m, seriesMinTs ((r0 :: d0).map Row.datetime) = some m := by
        simp [seriesMinTs]
      have hmax : ∃ m, seriesMaxTs ((r0 :: d0).map Row.datetime) = some m := by
        simp [seriesMaxTs]
      obtain ⟨mn, hmn⟩ := hmin
      obtain ⟨mx, hmx⟩ := hmax
      rw [date_range_full, hmn, hmx]
      show List.filter _ _ = _
      rw [List.filter_eq_self]
      intro r hr
      have h1 : tsLe mn r.datetime :=
        seriesMinTs_le hmn r.datetime (List.mem_map_of_mem Row.datetime hr)
      have h2 : tsLe r.datetime mx :=
        seriesMaxTs_ge hmx r.datetime (List.mem_map_of_mem Row.datetime hr)
      exact decide_eq_true ⟨tsLe_dateLe h1, tsLe_dateLe h2⟩

/-- Extended float value: exact rational, signed infinity, or NaN. This is
the codomain of the interannual statistics, which flow through numpy float
arithmetic (means, percent change, test p-values). A negative zero is not
modelled; no claim depends on it. -/
inductive EF where
  | fin : ℚ → EF
  | pinf : EF
  | ninf : EF
  | nan : EF
  deriving DecidableEq, Repr

/-- IEEE-style subtraction on extended values. -/
def EF.sub : EF → EF → EF
  | .fin a, .fin b => .fin (a - b)
  | .fin _, .pinf => .ninf
  | .fin _, .ninf => .pinf
  | .pinf, .fin _ => .pinf
  | .ninf, .fin _ => .ninf
  | .pinf, .ninf => .pinf
  | .ninf, .pinf => .ninf
  | _, _ => .nan

/-- IEEE-style multiplication on extended values. -/
def EF.mul : EF → EF → EF
  | .fin a, .fin b => .fin (a * b)
  | .fin a, .pinf => if a = 0 then .nan else if 0 < a then .pinf else .ninf
  | .fin a, .ninf => if a = 0 then .nan else if 0 < a then .ninf else .pinf
  | .pinf, .fin b => if b = 0 then .nan else if 0 < b then .pinf else .ninf
  | .ninf, .fin b => if b = 0 then .nan else if 0 < b then .ninf else .pinf
  | .pinf, .pinf => .pinf
  | .pinf, .ninf => .ninf
  | .ninf, .pinf => .ninf
  | .ninf, .ninf => .pinf
  | _, _ => .nan

/-- IEEE-style division on extended values (no negative zero, so a finite
nonzero value divided by zero takes the sign of the numerator). -/
def EF.div : EF → EF → EF
  | .fin a, .fin b =>
    if b = 0 then (if a = 0 then .nan else if 0 < a then .pinf else .ninf) else .fin (a / b)
  | .fin _, .pinf => .fin 0
  | .fin _, .ninf => .fin 0
  | .pinf, .fin b => if 0 ≤ b then .pinf else .ninf
  | .ninf, .fin b => if 0 ≤ b then .ninf else .pinf
  | _, _ => .nan

/-- NaN test (numpy isnan). -/
def EF.isNaN : EF → Bool
  | .nan => true
  | _ => false

/-- Float comparison of an extended value with a rational constant; NaN
compares false, as in numpy. -/
def EF.ltq (a : EF) (q : ℚ) : Bool :=
  match a with
  | .fin x => decide (x < q)
  | .ninf => true
  | _ => false

/-- Mean of a series of non-null values: NaN when empty, else sum over
count (pandas Series.mean). -/
def seriesMean (xs : List ℚ) : EF :=
  if xs.length = 0 then .nan else .fin (xs.sum / (xs.length : ℚ))

/-- Percent change of the 2025 mean over the 2024 mean (app.py line 1233):
the literal conditional expression, with np.inf when the 2024 mean equals
zero. -/
def pct_change (mean_2024 mean_2025 : EF) : EF :=
  if mean_2024 ≠ EF.fin 0 then
    ((mean_2025.sub mean_2024).div mean_2024).mul (EF.fin 100)
  else EF.pinf

/-- Outcome of a hypothesis test as the app reports it: an available
p-value, or the N/A sentinel produced by the except branch. -/
inductive TestResult where
  | avail : ℚ → TestResult
  | unavailable : TestResult
  deriving DecidableEq, Repr

/-- External two-sample test (scipy mannwhitneyu or ttest_ind): none models
the call raising an exception. -/
abbrev Test := List ℚ → List ℚ → Option ℚ

/-- Guarded test call (app.py lines 1187 to 1199): the try block stores the
p-value, the except branch reports N/A and sets the p-value to np.nan. -/
def runTest (t : Test) (xs ys : List ℚ) : TestResult × EF :=
  match t xs ys with
  | some p => (TestResult.avail p, EF.fin p)
  | none => (TestResult.unavailable, EF.nan)

/-- Non-null values of one variable restricted to one calendar year of the
clean dataset (app.py lines 1084 to 1085). -/
def yearVals (d : List Row) (y : Int) (v : Var) : List ℚ :=
  (d.filter (fun r => decide (r.datetime.date.year = y))).filterMap (col v)

/-- One line of the interannual comparison summary (app.py lines 1230 to
1243), plus the two per-test displays of lines 1187 to 1199. -/
structure SummaryRow where
  var : Var
  mean_2024 : EF
  mean_2025 : EF
  pct : EF
  significance : String
  p_value : EF
  mw_result : TestResult
  t_result : TestResult
  deriving DecidableEq, Repr

/-- Variable list of the interannual section (app.py line 1063); the
statistical-analysis section uses the same list (line 812). -/
def variables_to_plot : List Var :=
  [.temperature, .pressure, .salinity, .chlorophyll_a, .turbidity, .ph,
   .dissolved_oxygen, .pco2, .ta]

/-- Interannual comparison of one variable: year partitions with nulls
dropped, guarded Mann-Whitney and t tests, means, percent change, and the
significance label decided by mw_p < 0.05 (NaN compares false). -/
def summaryRow (mw tt : Test) (d : List Row) (v : Var) : SummaryRow :=
  let xs := yearVals d 2024 v
  let ys := yearVals d 2025 v
  let mwr := runTest mw xs ys
  let ttr := runTest tt xs ys
  let m1 := seriesMean xs
  let m2 := seriesMean ys
  { var := v
    mean_2024 := m1
    mean_2025 := m2
    pct := pct_change m1 m2
    significance := if EF.ltq mwr.2 (1/20) then "Significant" else "Not Significant"
    p_value := mwr.2
    mw_result := mwr.1
    t_result := ttr.1 }

/-- Interannual summary table: one row per plotted variable, built from the
full clean dataset (the loop of app.py lines 1080 to 1243). -/
def summary_data (mw tt : Test) (d : List Row) : List SummaryRow :=
  variables_to_plot.map (summaryRow mw tt d)

/-- Highlighted significant changes (app.py line 1257): rows whose stored
p-value is below 0.05 and is not NaN. -/
def significant_changes (mw tt : Test) (d : List Row) : List SummaryRow :=
  (summary_data mw tt d).filter
    (fun row => row.p_value.ltq (1/20) && !row.p_value.isNaN)

/-- Outputs of one dashboard run that the claims examine: the two
date-filtered datasets and the interannual summary, which the code builds
from the unfiltered clean dataset (app.py lines 1084 to 1085 use data, not
filtered_data). -/
structure AppOutputs where
  filtered_data : List Row
  filtered_raw_data : List Row
  interannual : List SummaryRow

/-- One dashboard run: the user-selected date range feeds only the range
selector; the interannual section reads the cached full clean dataset. -/
def appRun (mw tt : Test) (data raw_data : List Row) (date_range : List Date) : AppOutputs :=
  { filtered_data := filterRange data date_range
    filtered_raw_data := filterRange raw_data date_range
    interannual := summary_data mw tt data }

/-- C9: the interannual comparison is computed from the full clean dataset;
two runs that differ only in the selected date range produce identical
interannual summaries. -/
theorem interannual_independent_of_range (mw tt : Test) (data raw_data : List Row)
    (r1 r2 : List Date) :
    (appRun mw tt data raw_data r1).interannual =
      (appRun mw tt data raw_data r2).interannual :=
  rfl

/-- Record with a single temperature reading, for concrete instances. -/
def mkRow (y : Int) (mo dy : Nat) (t : Option ℚ) : Row :=
  ⟨⟨⟨y, mo, dy⟩, 0⟩, t, none, none, none, none, none, none, none, none⟩

/-- Example dataset: 2024 temperatures 1 and -1 (mean exactly 0), one 2025
temperature -4 (mean below the 2024 mean). -/
def exRows3 : List Row :=
  [mkRow 2024 1 1 (some 1), mkRow 2024 1 2 (some (-1)), mkRow 2025 1 1 (some (-4))]

/-- Example dataset matching the spec example: 2024 mean 2, 2025 mean 6. -/
def exRows1 : List Row :=
  [mkRow 2024 1 1 (some 1), mkRow 2024 1 2 (some 3),
   mkRow 2025 1 1 (some 5), mkRow 2025 1 2 (some 7)]

/-- Test stub that always succeeds with p-value one half. -/
def constT : Test := fun _ _ => some (1/2)

/-- Test stub that always raises. -/
def failT : Test := fun _ _ => none

/-- C3 counterexample: a 2024 partition with mean exactly 0 and a 2025 mean
strictly below it; the claim expects negative infinity, the code computes
np.inf, which is positive infinity. -/
theorem pct_change_counterexample :
    (summaryRow constT constT exRows3 .temperature).mean_2024 = EF.fin 0 ∧
    (summaryRow constT constT exRows3 .temperature).mean_2025 = EF.fin (-4) ∧
    (summaryRow constT constT exRows3 .temperature).pct = EF.pinf ∧
    EF.pinf ≠ EF.ninf := by
  refine ⟨?_, ?_, ?_, by decide⟩ <;>
    norm_num [summaryRow, pct_change, yearVals, seriesMean, exRows3, mkRow, col,
      List.filterMap_cons]

/-- C3 amended: the percent change equals (mean2 - mean1) / mean1 * 100 in
extended-float arithmetic whenever the 2024 mean is not exactly zero, and it
is positive infinity, regardless of the sign of mean2 - mean1, when the 2024
mean is exactly zero; no error is raised either way. -/
theorem pct_change_spec (d : List Row) (mw tt : Test) (v : Var) :
    ((summaryRow mw tt d v).mean_2024 ≠ EF.fin 0 →
      (summaryRow mw tt d v).pct =
        (((summaryRow mw tt d v).mean_2025.sub (summaryRow mw tt d v).mean_2024).div
          (summaryRow mw tt d v).mean_2024).mul (EF.fin 100)) ∧
    ((summaryRow mw tt d v).mean_2024 = EF.fin 0 →
      (summaryRow mw tt d v).pct = EF.pinf) := by
  have hp : (summaryRow mw tt d v).pct =
      pct_change (summaryRow mw tt d v).mean_2024 (summaryRow mw tt d v).mean_2025 := rfl
  constructor
  · intro h
    rw [hp, pct_change, if_pos h]
  · intro h
    rw [hp, pct_change, if_neg (not_not_intro h)]

/-- Witness for the amended C3 theorem at two concrete datasets, one for
each branch: the spec example gives percent change 200, the zero-mean
dataset gives positive infinity. -/
theorem pct_change_spec_witness :
    (summaryRow constT constT exRows1 .temperature).pct = EF.fin 200 ∧
    (summaryRow constT constT exRows3 .temperature).pct = EF.pinf := by
  constructor
  · have h := (pct_change_spec exRows1 constT constT .temperature).1 (by
      norm_num [summaryRow, yearVals, seriesMean, exRows1, mkRow, col, List.filterMap_cons])
    refine h.trans ?_
    norm_num [summaryRow, yearVals, seriesMean, exRows1, mkRow, col, List.filterMap_cons,
      EF.sub, EF.div, EF.mul]
  · exact (pct_change_spec exRows3 constT constT .temperature).2 (by
      norm_num [summaryRow, yearVals, seriesMean, exRows3, mkRow, col, List.filterMap_cons])

/-- C5: a failing test call is caught and localized: the variable still
gets a complete summary row whose means and percent change are the usual
values; if the Mann-Whitney call fails, only its result becomes
unavailable with a NaN p-value while the t-test result stays the guarded
outcome of the t-test call; if the t-test call fails, only its result
becomes unavailable while the Mann-Whitney result and stored p-value stay
the guarded outcome of the Mann-Whitney call; and every plotted variable
keeps a row in the summary either way. -/
theorem test_failure_localized (d : List Row) (mw tt : Test) (v : Var)
    (hv : v ∈ variables_to_plot) :
    ∃ row ∈ summary_data mw tt d,
      row.var = v ∧
      row.mean_2024 = seriesMean (yearVals d 2024 v) ∧
      row.mean_2025 = seriesMean (yearVals d 2025 v) ∧
      row.pct = pct_change (seriesMean (yearVals d 2024 v)) (seriesMean (yearVals d 2025 v)) ∧
      (mw (yearVals d 2024 v) (yearVals d 2025 v) = none →
        row.mw_result = TestResult.unavailable ∧ row.p_value = EF.nan ∧
        row.t_result = (runTest tt (yearVals d 2024 v) (yearVals d 2025 v)).1) ∧
      (tt (yearVals d 2024 v) (yearVals d 2025 v) = none →
        row.t_result = TestResult.unavailable ∧
        row.mw_result = (runTest mw (yearVals d 2024 v) (yearVals d 2025 v)).1 ∧
        row.p_value = (runTest mw (yearVals d 2024 v) (yearVals d 2025 v)).2) ∧
      (summary_data mw tt d).length = variables_to_plot.length ∧
      ∀ w ∈ variables_to_plot, ∃ other ∈ summary_data mw tt d, SummaryRow.var other = w := by
  refine ⟨summaryRow mw tt d v, List.mem_map_of_mem _ hv, rfl, rfl, rfl, rfl, ?_, ?_,
    List.length_map _ _, ?_⟩
  · intro hfail
    refine ⟨?_, ?_, rfl⟩ <;> simp [summaryRow, runTest, hfail]
  · intro hfail
    refine ⟨?_, rfl, rfl⟩
    simp [summaryRow, runTest, hfail]
  · intro w hw
    exact ⟨summaryRow mw tt d w, List.mem_map_of_mem _ hw, rfl⟩

/-- Witness for C5: with both test stubs raising, the theorem applied at a
concrete dataset discharges both failure hypotheses, giving a row where
each test is unavailable and the means are still the series means; a
second application with only the t-test raising shows the Mann-Whitney
side staying available. -/
theorem test_failure_localized_witness :
    (∃ row ∈ summary_data failT failT exRows3,
      row.var = Var.temperature ∧
      row.mean_2024 = seriesMean (yearVals exRows3 2024 .temperature) ∧
      row.mean_2025 = seriesMean (yearVals exRows3 2025 .temperature) ∧
      row.pct = pct_change (seriesMean (yearVals exRows3 2024 .temperature))
        (seriesMean (yearVals exRows3 2025 .temperature)) ∧
      row.mw_result = TestResult.unavailable ∧
      row.p_value = EF.nan ∧
      row.t_result = TestResult.unavailable ∧
      (summary_data failT failT exRows3).length = variables_to_plot.length) ∧
    (∃ row ∈ summary_data constT failT exRows3,
      row.var = Var.temperature ∧
      row.t_result = TestResult.unavailable ∧
      row.mw_result = TestResult.avail (1/2) ∧
      row.p_value = EF.fin (1/2)) := by
  constructor
  · obtain ⟨row, hmem, hvar, hm1, hm2, hpct, hmw, htt, hlen, -⟩ :=
      test_failure_localized exRows3 failT failT .temperature (by decide)
    obtain ⟨hmw1, hmw2, -⟩ := hmw rfl
    obtain ⟨htt1, -, -⟩ := htt rfl
    exact ⟨row, hmem, hvar, hm1, hm2, hpct, hmw1, hmw2, htt1, hlen⟩
  · obtain ⟨row, hmem, hvar, -, -, -, -, htt, -, -⟩ :=
      test_failure_localized exRows3 constT failT .temperature (by decide)
    obtain ⟨htt1, htt2, htt3⟩ := htt rfl
    exact ⟨row, hmem, hvar, htt1, htt2.trans rfl, htt3.trans rfl⟩

/-- C10: when the Mann-Whitney call for a variable fails, its stored p-value
is NaN, the summary labels the variable Not Significant (NaN < 0.05 is
false), and no row for that variable appears among the highlighted
significant changes. -/
theorem unavailable_labeled_not_significant (d : List Row) (mw tt : Test) (v : Var)
    (hfail : mw (yearVals d 2024 v) (yearVals d 2025 v) = none) :
    (summaryRow mw tt d v).p_value = EF.nan ∧
    (summaryRow mw tt d v).significance = "Not Significant" ∧
    ∀ row ∈ significant_changes mw tt d, row.var ≠ v := by
  have hpn : (summaryRow mw tt d v).p_value = EF.nan := by
    simp [summaryRow, runTest, hfail]
  refine ⟨hpn, ?_, ?_⟩
  · simp [summaryRow, runTest, hfail, EF.ltq]
  · intro row hrow hvar
    rw [significant_changes, List.mem_filter] at hrow
    obtain ⟨hmem, hpred⟩ := hrow
    rw [summary_data, List.mem_map] at hmem
    obtain ⟨w, hw, rfl⟩ := hmem
    have hwv : w = v := hvar
    subst hwv
    rw [hpn] at hpred
    simp [EF.ltq, EF.isNaN] at hpred

/-- Witness for C10 with an always-raising Mann-Whitney stub on a concrete
dataset. -/
theorem unavailable_labeled_not_significant_witness :
    (summaryRow failT constT exRows1 .temperature).p_value = EF.nan ∧
    (summaryRow failT constT exRows1 .temperature).significance = "Not Significant" ∧
    ∀ row ∈ significant_changes failT constT exRows1, row.var ≠ Var.temperature :=
  unavailable_labeled_not_significant exRows1 failT constT .temperature rfl

/-- Witness for C7 at a concrete dataset: a degenerate (empty) selection and
the full min/max range both return the dataset unchanged. -/
theorem range_selector_spec_witness :
    filterRange exRows1 [] = exRows1 ∧
    filterRange exRows1 (date_range_full exRows1) = exRows1 :=
  ⟨(range_selector_spec exRows1).2.1 [] (by decide),
   (range_selector_spec exRows1).2.2 (by decide)⟩

/-- Per-variable IQR outlier summary as displayed by the bar chart. -/
structure OutlierSummary where
  count : ℕ
  percentage : ℚ
  deriving DecidableEq, Repr

/-- IQR outlier summary of one variable (app.py lines 717 to 741): on the
non-null values, quartiles, 1.5 IQR fences, the count outside the fences
and its percentage of the non-null count; with no non-null values the
zero summary is appended instead. The quantile calls sit under the
nonemptiness guard, so the none branch of the match is unreachable,
mirroring the source where Series.quantile is total on nonempty input. -/
def outlierStats (vals : List (Option ℚ)) : OutlierSummary :=
  let values := vals.filterMap id
  if 0 < values.length then
    match quantile (1/4) values, quantile (3/4) values with
    | some q1, some q3 =>
      let iqr := q3 - q1
      let lower_bound := q1 - 3/2 * iqr
      let upper_bound := q3 + 3/2 * iqr
      let c := values.countP (fun v => decide (v < lower_bound ∨ upper_bound < v))
      ⟨c, (c : ℚ) / (values.length : ℚ) * 100⟩
    | _, _ => ⟨0, 0⟩
  else ⟨0, 0⟩

/-- C8: the IQR outlier summary of a variable depends only on that
variable's column (computed per variable independently), and a variable
with zero non-null values yields count 0 and percentage 0, the guarded
division never being reached. -/
theorem iqr_summary_empty_safe (d d2 : List Row) (v : Var) :
    (d.map (col v) = d2.map (col v) →
      outlierStats (d.map (col v)) = outlierStats (d2.map (col v))) ∧
    ((d.map (col v)).filterMap id = [] →
      outlierStats (d.map (col v)) = ⟨0, 0⟩) := by
  constructor
  · intro h
    rw [h]
  · intro h
    simp [outlierStats, h]

/-- Witness for C8 on a concrete dataset whose ph column is all null. -/
theorem iqr_summary_empty_safe_witness :
    outlierStats (exRows1.map (col .ph)) = outlierStats (exRows1.map (col .ph)) ∧
    outlierStats (exRows1.map (col .ph)) = ⟨0, 0⟩ :=
  ⟨(iqr_summary_empty_safe exRows1 exRows1 .ph).1 rfl,
   (iqr_summary_empty_safe exRows1 exRows1 .ph).2 rfl⟩

/-- Variable list of the statistical-analysis section (app.py line 812). -/
def corrVariables : List Var :=
  [.temperature, .pressure, .salinity, .chlorophyll_a, .turbidity, .ph,
   .dissolved_oxygen, .pco2, .ta]

/-- Variable at a matrix index (indices range over corrVariables). -/
def varAt (k : ℕ) : Var :=
  corrVariables.getD k .temperature

/-- Pairwise-complete rows of two variables: the (x, y) pairs of the rows
where both columns are non-null, in dataset order (the dropna of app.py
line 824, also what pandas corr uses per pair). -/
def validPairs (d : List Row) (vi vj : Var) : List (ℚ × ℚ) :=
  d.filterMap (fun r =>
    match col vi r, col vj r with
    | some x, some y => some (x, y)
    | _, _ => none)

/-- Centered sums of a paired sample: the quantities pandas nancorr
accumulates (with Welford updates, exact here): valid count, centered sum
of squares of each coordinate, and the centered cross sum. The Pearson r
of the pair is sxy / sqrt (sxx * syy). -/
structure PearsonSums where
  n : ℕ
  sxx : ℚ
  syy : ℚ
  sxy : ℚ
  deriving DecidableEq, Repr

/-- Centered sums of a list of pairs. -/
def pearsonSums (ps : List (ℚ × ℚ)) : PearsonSums :=
  let n := ps.length
  let mx := (ps.map Prod.fst).sum / (n : ℚ)
  let my := (ps.map Prod.snd).sum / (n : ℚ)
  { n := n
    sxx := (ps.map (fun p => (p.1 - mx) ^ 2)).sum
    syy := (ps.map (fun p => (p.2 - my) ^ 2)).sum
    sxy := (ps.map (fun p => (p.1 - mx) * (p.2 - my))).sum }

/-- Entry (i, j) of the Pearson correlation matrix of app.py line 816, in
centered-sum representation. -/
def corr_matrix (d : List Row) (i j : ℕ) : PearsonSums :=
  pearsonSums (validPairs d (varAt i) (varAt j))

/-- Float value of a matrix entry, as pandas nancorr computes it with the
default min_periods of 1: NaN (none) when there are no valid observations
or when the divisor sqrt(sxx * syy) is zero, else sxy over that square
root. -/
noncomputable def corrValue (s : PearsonSums) : Option ℝ :=
  if s.n < 1 then none
  else if s.sxx * s.syy = 0 then none
  else some ((s.sxy : ℝ) / Real.sqrt ((s.sxx * s.syy : ℚ) : ℝ))

/-- Entry (i, j) of the p-value matrix (app.py lines 819 to 831): 0 on the
diagonal; off the diagonal, the pearsonr two-tailed p-value over the
pairwise-complete rows when more than 2 of them exist, else 1.0. The
pearsonr p-value itself is the external parameter pr. -/
def p_values (pr : List (ℚ × ℚ) → ℚ) (d : List Row) (i j : ℕ) : ℚ :=
  if i ≠ j then
    if 2 < (validPairs d (varAt i) (varAt j)).length then
      pr (validPairs d (varAt i) (varAt j))
    else 1
  else 0

lemma pearsonSums_sxx_nonneg (ps : List (ℚ × ℚ)) : 0 ≤ (pearsonSums ps).sxx := by
  apply List.sum_nonneg
  intro x hx
  obtain ⟨p, _, rfl⟩ := List.mem_map.mp hx
  positivity

lemma pearsonSums_syy_nonneg (ps : List (ℚ × ℚ)) : 0 ≤ (pearsonSums ps).syy := by
  apply List.sum_nonneg
  intro x hx
  obtain ⟨p, _, rfl⟩ := List.mem_map.mp hx
  positivity

lemma pearsonSums_n_eq_length (ps : List (ℚ × ℚ)) : (pearsonSums ps).n = ps.length := rfl

lemma validPairs_swap (d : List Row) (vi vj : Var) :
    validPairs d vj vi = (validPairs d vi vj).map Prod.swap := by
  induction d with
  | nil => rfl
  | cons r t ih =>
    simp only [validPairs, List.filterMap_cons] at ih ⊢
    cases col vi r <;> cases col vj r <;> simp [ih]

lemma pearsonSums_swap_n (ps : List (ℚ × ℚ)) :
    (pearsonSums (ps.map Prod.swap)).n = (pearsonSums ps).n := by
  simp [pearsonSums]

lemma pearsonSums_swap_sxx (ps : List (ℚ × ℚ)) :
    (pearsonSums (ps.map Prod.swap)).sxx = (pearsonSums ps).syy := by
  simp [pearsonSums, List.map_map, Function.comp_def]

lemma pearsonSums_swap_syy (ps : List (ℚ × ℚ)) :
    (pearsonSums (ps.map Prod.swap)).syy = (pearsonSums ps).sxx := by
  simp [pearsonSums, List.map_map, Function.comp_def]

lemma pearsonSums_swap_sxy (ps : List (ℚ × ℚ)) :
    (pearsonSums (ps.map Prod.swap)).sxy = (pearsonSums ps).sxy := by
  simp only [pearsonSums, List.map_map, List.length_map]
  refine congrArg List.sum (List.map_congr_left ?_)
  intro p _
  simp [Function.comp_def]
  ring

lemma validPairs_self (d : List Row) (v : Var) :
    validPairs d v v = (d.filterMap (col v)).map (fun x => (x, x)) := by
  induction d with
  | nil => rfl
  | cons r t ih =>
    simp only [validPairs, List.filterMap_cons] at ih ⊢
    cases col v r <;> simp [ih]

lemma pearsonSums_diag_syy (xs : List ℚ) :
    (pearsonSums (xs.map (fun x => (x, x)))).syy =
      (pearsonSums (xs.map (fun x => (x, x)))).sxx := by
  simp [pearsonSums, List.map_map, Function.comp_def]

lemma pearsonSums_diag_sxy (xs : List ℚ) :
    (pearsonSums (xs.map (fun x => (x, x)))).sxy =
      (pearsonSums (xs.map (fun x => (x, x)))).sxx := by
  simp only [pearsonSums, List.map_map, List.length_map]
  refine congrArg List.sum (List.map_congr_left ?_)
  intro x _
  simp [Function.comp_def]
  ring

/-- Record with every sensor column present, for concrete instances. -/
def fullRow : Row :=
  ⟨⟨⟨2024, 1, 1⟩, 0⟩, some 10, some 1, some 2, some 3, some 30, some 8,
   some 200, some 400, some 2300⟩

/-- Single-row dataset: every column is constant, so every centered sum of
squares is zero. -/
def exRowsOne : List Row := [fullRow]

/-- C4 counterexample: on the (degenerately) filtered single-row dataset the
diagonal correlation entry is NaN, not 1.0, because pandas computes the
diagonal like any other entry and the zero divisor yields NaN; no 1.0
convention is applied. -/
theorem corr_diagonal_counterexample :
    corrValue (corr_matrix (filterRange exRowsOne []) 0 0) = none ∧
    (none : Option ℝ) ≠ some (1 : ℝ) := by
  constructor
  · have h : corr_matrix (filterRange exRowsOne []) 0 0 = ⟨1, 0, 0, 0⟩ := by
      norm_num [corr_matrix, pearsonSums, validPairs, varAt, corrVariables, filterRange,
        exRowsOne, fullRow, col, List.filterMap_cons]
    rw [h]
    simp [corrValue]
  · simp

/-- C4 amended: the correlation matrix is symmetric and the p-value matrix
is symmetric (for the symmetric pearsonr p-value); diagonal p-values are 0;
a diagonal correlation entry is exactly 1.0 when the centered sum of
squares of the column is nonzero and NaN when it is zero (instead of the
claimed unconditional 1.0); each off-diagonal pair uses the
pairwise-complete rows, receiving the pearsonr p-value over those rows when
more than 2 exist and 1.0 otherwise, without failing. -/
theorem corr_matrix_spec (d : List Row) (pr : List (ℚ × ℚ) → ℚ)
    (hsym : ∀ l : List (ℚ × ℚ), pr (l.map Prod.swap) = pr l) :
    (∀ i j, corrValue (corr_matrix d i j) = corrValue (corr_matrix d j i)) ∧
    (∀ i j, p_values pr d i j = p_values pr d j i) ∧
    (∀ i, p_values pr d i i = 0) ∧
    (∀ i, (corr_matrix d i i).sxx ≠ 0 → corrValue (corr_matrix d i i) = some 1) ∧
    (∀ i, (corr_matrix d i i).sxx = 0 → corrValue (corr_matrix d i i) = none) ∧
    (∀ i j, i ≠ j → 2 < (validPairs d (varAt i) (varAt j)).length →
      p_values pr d i j = pr (validPairs d (varAt i) (varAt j))) ∧
    (∀ i j, i ≠ j → (validPairs d (varAt i) (varAt j)).length ≤ 2 →
      p_values pr d i j = 1) := by
  refine ⟨?_, ?_, ?_, ?_, ?_, ?_, ?_⟩
  · intro i j
    have hswap : corr_matrix d j i =
        pearsonSums ((validPairs d (varAt i) (varAt j)).map Prod.swap) := by
      rw [corr_matrix, validPairs_swap]
    rw [hswap, corr_matrix]
    simp only [corrValue, pearsonSums_swap_n, pearsonSums_swap_sxx, pearsonSums_swap_syy,
      pearsonSums_swap_sxy, mul_comm]
  · intro i j
    by_cases hij : i = j
    · subst hij; rfl
    · rw [p_values, p_values, if_pos hij, if_pos (Ne.symm hij),
        validPairs_swap d (varAt i) (varAt j), List.length_map, hsym]
  · intro i
    simp [p_values]
  · intro i h
    rw [corr_matrix, validPairs_self] at h ⊢
    have hyy := pearsonSums_diag_syy (d.filterMap (col (varAt i)))
    have hxy := pearsonSums_diag_sxy (d.filterMap (col (varAt i)))
    have hn : ¬ (pearsonSums ((d.filterMap (col (varAt i))).map fun x => (x, x))).n < 1 := by
      intro hlt
      have hn0 : ((d.filterMap (col (varAt i))).map fun x => (x, x)).length = 0 := by
        rw [← pearsonSums_n_eq_length]; omega
      rw [List.length_eq_zero.mp hn0] at h
      exact h rfl
    have hprod : (pearsonSums ((d.filterMap (col (varAt i))).map fun x => (x, x))).sxx *
        (pearsonSums ((d.filterMap (col (varAt i))).map fun x => (x, x))).syy =
        (pearsonSums ((d.filterMap (col (varAt i))).map fun x => (x, x))).sxx *
        (pearsonSums ((d.filterMap (col (varAt i))).map fun x => (x, x))).sxx := by
      rw [hyy]
    rw [corrValue, if_neg hn, if_neg (by rw [hprod]; exact mul_ne_zero h h)]
    rw [hxy, hprod]
    have hx0 : (0 : ℚ) ≤ (pearsonSums ((d.filterMap (col (varAt i))).map fun x => (x, x))).sxx :=
      pearsonSums_sxx_nonneg _
    have hcast : (((pearsonSums ((d.filterMap (col (varAt i))).map fun x => (x, x))).sxx *
        (pearsonSums ((d.filterMap (col (varAt i))).map fun x => (x, x))).sxx : ℚ) : ℝ) =
        ((pearsonSums ((d.filterMap (col (varAt i))).map fun x => (x, x))).sxx : ℝ) ^ 2 := by
      push_cast
      ring
    rw [hcast, Real.sqrt_sq (by exact_mod_cast hx0),
      div_self (by exact_mod_cast (Rat.cast_ne_zero.mpr h))]
  · intro i h0
    rw [corr_matrix, validPairs_self] at h0 ⊢
    by_cases hn : (pearsonSums ((d.filterMap (col (varAt i))).map fun x => (x, x))).n < 1
    · rw [corrValue, if_pos hn]
    · rw [corrValue, if_neg hn, if_pos (by rw [h0, zero_mul])]
  · intro i j hij h2
    rw [p_values, if_pos hij, if_pos h2]
  · intro i j hij h2
    rw [p_values, if_pos hij, if_neg (not_lt.mpr h2)]

/-- Witness for the amended C4 theorem: a constant pearsonr p-value stub on
a concrete dataset whose temperature column has nonzero variance, exercising
the diagonal value, the diagonal p-value, and the small-sample fallback. -/
theorem corr_matrix_spec_witness :
    corrValue (corr_matrix exRows1 0 0) = some 1 ∧
    p_values (fun _ => 1/2) exRows1 0 0 = 0 ∧
    p_values (fun _ => 1/2) exRows1 0 1 = 1 := by
  have h := corr_matrix_spec exRows1 (fun _ => 1/2) (fun l => rfl)
  refine ⟨h.2.2.2.1 0 ?_, h.2.2.1 0, h.2.2.2.2.2.2 0 1 (by decide) ?_⟩
  · norm_num [corr_matrix, pearsonSums, validPairs, varAt, corrVariables, exRows1, mkRow, col,
      List.filterMap_cons]
  · norm_num [validPairs, varAt, corrVariables, exRows1, mkRow, col, List.filterMap_cons]

/-- Selection guard of the best-pair loop (app.py line 942): the source
tests abs(r) > sqrt(0.8) and p < 0.05 on the float r. In exact arithmetic
r = sxy / sqrt(sxx * syy) is a (non-NaN) number exactly when there is at
least one valid observation and sxx * syy is nonzero, and then
abs(r) > sqrt(0.8) holds exactly when sxy ^ 2 > 0.8 * (sxx * syy); a NaN r
fails the float comparison, which the first two conjuncts encode. -/
def pairGuard (s : PearsonSums) (p : ℚ) : Prop :=
  1 ≤ s.n ∧ s.sxx * s.syy ≠ 0 ∧ (4/5) * (s.sxx * s.syy) < s.sxy ^ 2 ∧ p < 1/20

instance (s : PearsonSums) (p : ℚ) : Decidable (pairGuard s p) := by
  unfold pairGuard; infer_instance

/-- Best-correlated pair entry: variable indices, r squared (the sort key,
equal to sxy ^ 2 / (sxx * syy) since r2 = r ** 2 in the source), and the
p-value. -/
structure BestPair where
  i : ℕ
  j : ℕ
  r2 : ℚ
  p : ℚ
  deriving DecidableEq, Repr

/-- Candidate entry for indices (i, j): the body of the selection loop. -/
def mkBestPair (pr : List (ℚ × ℚ) → ℚ) (d : List Row) (i j : ℕ) : Option BestPair :=
  if pairGuard (corr_matrix d i j) (p_values pr d i j) then
    some ⟨i, j,
      (corr_matrix d i j).sxy ^ 2 / ((corr_matrix d i j).sxx * (corr_matrix d i j).syy),
      p_values pr d i j⟩
  else none

/-- Upper-triangle index pairs in loop order: i over the variable range, j
from i + 1 (app.py lines 937 to 938). -/
def upperPairs : List (ℕ × ℕ) :=
  (List.range corrVariables.length).flatMap
    (fun i => (List.range' (i + 1) (corrVariables.length - (i + 1))).map (fun j => (i, j)))

/-- Selected candidates in enumeration order. -/
def candPairs (pr : List (ℚ × ℚ) → ℚ) (d : List Row) : List BestPair :=
  upperPairs.filterMap (fun ij => mkBestPair pr d ij.1 ij.2)

/-- Descending comparison on the r2 key used by the stable sort; Python
sorted with reverse=True keeps equal keys in input order, as mergeSort with
this comparison does. -/
def bpLe (a b : BestPair) : Bool := decide (b.r2 ≤ a.r2)

/-- Best-pair list (app.py line 954): candidates sorted by descending r2
with a stable sort, truncated to the top 6. -/
def best_pairs (pr : List (ℚ × ℚ) → ℚ) (d : List Row) : List BestPair :=
  ((candPairs pr d).mergeSort bpLe).take 6

lemma bpLe_trans : ∀ a b c : BestPair, bpLe a b = true → bpLe b c = true → bpLe a c = true := by
  intro a b c h1 h2
  simp only [bpLe, decide_eq_true_eq] at h1 h2 ⊢
  exact le_trans h2 h1

lemma bpLe_total : ∀ a b : BestPair, (bpLe a b || bpLe b a) = true := by
  intro a b
  simp only [bpLe, Bool.or_eq_true, decide_eq_true_eq]
  exact le_total b.r2 a.r2

lemma mkBestPair_eq_some {pr : List (ℚ × ℚ) → ℚ} {d : List Row} {i j : ℕ} {e : BestPair}
    (h : mkBestPair pr d i j = some e) :
    e.i = i ∧ e.j = j ∧
    pairGuard (corr_matrix d i j) (p_values pr d i j) ∧
    e.r2 = (corr_matrix d i j).sxy ^ 2 /
      ((corr_matrix d i j).sxx * (corr_matrix d i j).syy) ∧
    e.p = p_values pr d i j := by
  rw [mkBestPair] at h
  by_cases hg : pairGuard (corr_matrix d i j) (p_values pr d i j)
  · rw [if_pos hg] at h
    obtain rfl := Option.some.inj h
    exact ⟨rfl, rfl, hg, rfl, rfl⟩
  · rw [if_neg hg] at h
    exact absurd h (by simp)

/-- Strict order of index pairs in enumeration order. -/
def pairLt (p q : ℕ × ℕ) : Prop := p.1 < q.1 ∨ (p.1 = q.1 ∧ p.2 < q.2)

instance (p q : ℕ × ℕ) : Decidable (pairLt p q) := by
  unfold pairLt; infer_instance

lemma upperPairs_pairwise : upperPairs.Pairwise pairLt := by decide

lemma upperPairs_mem_lt : ∀ p ∈ upperPairs, p.1 < p.2 := by decide

/-- Enumeration order on candidate entries, read off their indices. -/
def bpLex (a b : BestPair) : Prop := a.i < b.i ∨ (a.i = b.i ∧ a.j < b.j)

lemma bpLex_ne {a b : BestPair} (h : bpLex a b) : a ≠ b := by
  intro heq
  subst heq
  rcases h with h | ⟨_, h⟩ <;> omega

lemma candPairs_pairwise (pr : List (ℚ × ℚ) → ℚ) (d : List Row) :
    (candPairs pr d).Pairwise bpLex := by
  rw [candPairs, List.pairwise_filterMap]
  refine upperPairs_pairwise.imp ?_
  intro p q hpq a ha b hb
  obtain ⟨hai, haj, -, -, -⟩ := mkBestPair_eq_some (Option.mem_def.mp ha)
  obtain ⟨hbi, hbj, -, -, -⟩ := mkBestPair_eq_some (Option.mem_def.mp hb)
  rw [bpLex, hai, haj, hbi, hbj]
  exact hpq

lemma candPairs_nodup (pr : List (ℚ × ℚ) → ℚ) (d : List Row) :
    (candPairs pr d).Nodup :=
  (candPairs_pairwise pr d).imp bpLex_ne

lemma pair_sublist_of_mem {α : Type} {l : List α} {x y : α} (hx : x ∈ l) (hy : y ∈ l)
    (hne : x ≠ y) : [x, y].Sublist l ∨ [y, x].Sublist l := by
  obtain ⟨ix, hix⟩ := List.mem_iff_get.mp hx
  obtain ⟨iy, hiy⟩ := List.mem_iff_get.mp hy
  rcases lt_trichotomy ix iy with h | h | h
  · left
    have hmap : [x, y] = List.map l.get [ix, iy] := by
      simp only [List.map_cons, List.map_nil, hix, hiy]
    rw [hmap]
    refine List.map_get_sublist ?_
    simp [List.pairwise_cons]
    exact h
  · rw [h] at hix
    exact absurd (hix.symm.trans hiy) hne
  · right
    have hmap : [y, x] = List.map l.get [iy, ix] := by
      simp only [List.map_cons, List.map_nil, hix, hiy]
    rw [hmap]
    refine List.map_get_sublist ?_
    simp [List.pairwise_cons]
    exact h

lemma not_pair_sublist_both {α : Type} {l : List α} {x y : α} (hnd : l.Nodup)
    (h1 : [x, y].Sublist l) (h2 : [y, x].Sublist l) : False := by
  by_cases hxy : x = y
  · subst hxy
    have h3 := List.Nodup.sublist h1 hnd
    simp at h3
  · obtain ⟨is1, his1, hp1⟩ := List.sublist_eq_map_get h1
    obtain ⟨is2, his2, hp2⟩ := List.sublist_eq_map_get h2
    rcases is1 with _ | ⟨i1, _ | ⟨i2, _ | ⟨i3, is1⟩⟩⟩ <;> simp at his1
    rcases is2 with _ | ⟨j1, _ | ⟨j2, _ | ⟨j3, is2⟩⟩⟩ <;> simp at his2
    simp only [List.pairwise_cons, List.mem_singleton] at hp1 hp2
    have hlt1 : (i1 : ℕ) < (i2 : ℕ) := hp1.1 i2 rfl
    have hlt2 : (j1 : ℕ) < (j2 : ℕ) := hp2.1 j2 rfl
    have he1 : i1 = j2 := by
      rw [← hnd.get_inj_iff, List.get_eq_getElem, List.get_eq_getElem, ← his1.1, ← his2.2]
    have he2 : i2 = j1 := by
      rw [← hnd.get_inj_iff, List.get_eq_getElem, List.get_eq_getElem, ← his1.2, ← his2.1]
    rw [he1] at hlt1
    rw [he2] at hlt1
    omega

lemma mergeSort_key_stable (pr : List (ℚ × ℚ) → ℚ) (d : List Row) :
    ((candPairs pr d).mergeSort bpLe).Pairwise
      (fun a b => b.r2 ≤ a.r2 ∧ (b.r2 = a.r2 → bpLex a b)) := by
  have hperm : ((candPairs pr d).mergeSort bpLe).Perm (candPairs pr d) :=
    List.mergeSort_perm _ _
  have hnd : ((candPairs pr d).mergeSort bpLe).Nodup :=
    hperm.symm.nodup (candPairs_nodup pr d)
  have hsorted : ((candPairs pr d).mergeSort bpLe).Pairwise (fun a b => bpLe a b = true) :=
    List.sorted_mergeSort bpLe_trans bpLe_total (candPairs pr d)
  rw [List.pairwise_iff_forall_sublist]
  intro a b hab
  have hkey : bpLe a b = true := List.pairwise_iff_forall_sublist.mp hsorted hab
  refine ⟨by simpa [bpLe] using hkey, ?_⟩
  intro heq
  have haC : a ∈ candPairs pr d := hperm.subset (hab.subset (by simp))
  have hbC : b ∈ candPairs pr d := hperm.subset (hab.subset (by simp))
  have hne : a ≠ b := by
    have h3 := List.Nodup.sublist hab hnd
    simp at h3
    exact h3
  rcases pair_sublist_of_mem haC hbC hne with hs | hs
  · exact List.pairwise_iff_forall_sublist.mp (candPairs_pairwise pr d) hs
  · exfalso
    have hba : List.Pairwise (fun x y => bpLe x y = true) [b, a] := by
      simp [List.pairwise_cons, bpLe, heq]
    have hsub : [b, a].Sublist ((candPairs pr d).mergeSort bpLe) :=
      List.sublist_mergeSort bpLe_trans bpLe_total hba hs
    exact not_pair_sublist_both hnd hab hsub

/-- C1: every best-fit entry is an upper-triangle pair (i < j) with r2
above 0.8 and p below 0.05; the list holds at most 6 entries; it is sorted
by descending r2 with ties ordered by the loop enumeration order of the
index pairs (the stable sort keeps equal keys in input order); and
conversely every upper-triangle pair passing the guard contributes an entry
to the sorted pool that the final list truncates to 6. -/
theorem best_pairs_spec (d : List Row) (pr : List (ℚ × ℚ) → ℚ) :
    (∀ e ∈ best_pairs pr d, e.i < e.j ∧ 4/5 < e.r2 ∧ e.p < 1/20) ∧
    (best_pairs pr d).length ≤ 6 ∧
    (best_pairs pr d).Pairwise
      (fun a b => b.r2 ≤ a.r2 ∧ (b.r2 = a.r2 → (a.i < b.i ∨ (a.i = b.i ∧ a.j < b.j)))) ∧
    (∀ i j, (i, j) ∈ upperPairs →
      pairGuard (corr_matrix d i j) (p_values pr d i j) →
      ∃ e, mkBestPair pr d i j = some e ∧ e ∈ (candPairs pr d).mergeSort bpLe ∧
        best_pairs pr d = ((candPairs pr d).mergeSort bpLe).take 6) := by
  refine ⟨?_, ?_, ?_, ?_⟩
  · intro e he
    have heC : e ∈ candPairs pr d :=
      (List.mergeSort_perm _ _).subset (List.take_subset _ _ he)
    obtain ⟨ij, hij, hmk⟩ := List.mem_filterMap.mp heC
    obtain ⟨hei, hej, hguard, hr2, hp⟩ := mkBestPair_eq_some hmk
    obtain ⟨hn, hD, hlt, hplt⟩ := hguard
    have hD0 : 0 < (corr_matrix d ij.1 ij.2).sxx * (corr_matrix d ij.1 ij.2).syy :=
      lt_of_le_of_ne (mul_nonneg (pearsonSums_sxx_nonneg _) (pearsonSums_syy_nonneg _))
        (Ne.symm hD)
    refine ⟨?_, ?_, ?_⟩
    · rw [hei, hej]
      exact upperPairs_mem_lt ij hij
    · rw [hr2, lt_div_iff hD0]
      exact hlt
    · rw [hp]
      exact hplt
  · rw [best_pairs]
    exact (List.length_take 6 _).le.trans (min_le_left _ _)
  · exact List.Pairwise.sublist (List.take_sublist 6 _) (mergeSort_key_stable pr d)
  · intro i j hmem hguard
    refine ⟨⟨i, j,
      (corr_matrix d i j).sxy ^ 2 / ((corr_matrix d i j).sxx * (corr_matrix d i j).syy),
      p_values pr d i j⟩, ?_, ?_, rfl⟩
    · rw [mkBestPair, if_pos hguard]
    · refine (List.mergeSort_perm (candPairs pr d) bpLe).mem_iff.mpr ?_
      refine List.mem_filterMap.mpr ⟨(i, j), hmem, ?_⟩
      rw [mkBestPair, if_pos hguard]

/-- Dataset whose temperature and pressure columns are perfectly linearly
related over three shared rows. -/
def exRowsCorr : List Row :=
  [⟨⟨⟨2024, 1, 1⟩, 0⟩, some 1, some 2, none, none, none, none, none, none, none⟩,
   ⟨⟨⟨2024, 1, 2⟩, 0⟩, some 2, some 4, none, none, none, none, none, none, none⟩,
   ⟨⟨⟨2024, 1, 3⟩, 0⟩, some 3, some 6, none, none, none, none, none, none, none⟩]

/-- Witness for C1 on a concrete dataset: the temperature and pressure
pair (indices 0 and 1) passes the guard and is selected. -/
theorem best_pairs_spec_witness :
    ∃ e, mkBestPair (fun _ => 0) exRowsCorr 0 1 = some e ∧
      e ∈ (candPairs (fun _ => 0) exRowsCorr).mergeSort bpLe ∧
      best_pairs (fun _ => 0) exRowsCorr =
        ((candPairs (fun _ => 0) exRowsCorr).mergeSort bpLe).take 6 :=
  (best_pairs_spec exRowsCorr (fun _ => 0)).2.2.2 0 1 (by decide) (by
    norm_num [pairGuard, corr_matrix, pearsonSums, validPairs, varAt, corrVariables,
      p_values, exRowsCorr, col, List.filterMap_cons])
